import Mathlib

/-!
Verification of the cell-ai-command-bar prediction/automation kernel.

This file shallowly embeds the pattern engine (`src/core/PatternEngine.ts`
together with the storage helpers bundled in that file), the string
similarity helper (`src/utils/helpers.ts`), the workflow automation layer
(`src/ui/CommandBar.tsx`, class `WorkflowAutomation`) and the repetition
watcher of `standalone-cell.js`, and proves the spec's testable properties
about these definitions.

Modelling conventions:
* JavaScript objects used as string-keyed maps are modelled as association
  lists in insertion order (`for ... in` iterates string keys in insertion
  order); updating an existing key keeps its position, a new key is appended.
* JavaScript numbers are modelled as `ℚ` where the code only does field
  arithmetic and comparisons, as `ℕ`/`ℤ` for counts and timestamps, and as
  `ℝ` where `Math.exp` is involved (`calculateRecencyFactor`).
* `Math.exp` is not computable, so the computable engine model takes the
  current value of `calculateRecencyFactor` as an explicit `recency`
  parameter; the real-valued recency/confidence functions are modelled
  separately and related to the same formula.
-/

namespace CellAI

/-! ## Data model (`src/types.ts`)

`headers`/`body`/`source` of `NetworkRequest`, and the `options` payload of
`Action`, are never inspected by the logic under verification and are
omitted from the embedding. -/

structure NetworkRequest where
  id : String
  url : String
  method : String
  timestamp : ℤ
deriving DecidableEq

structure Action where
  id : String
  type : String
  description : String
  url : Option String := none
  selector : Option String := none
  event : Option String := none
deriving DecidableEq

structure Prediction where
  confidence : ℚ
  action : Action
  context : String
deriving DecidableEq

structure Workflow where
  id : String
  name : String
  description : String
  actions : List Action
  frequency : ℕ
  lastExecuted : Option ℤ
deriving DecidableEq

/-! ## Association-list model of JavaScript string-keyed objects -/

/-- Lookup in an insertion-ordered association list (JS `obj[key]`). -/
def alookup {α : Type} : List (String × α) → String → Option α
  | [], _ => none
  | (k, v) :: rest, key => if k = key then some v else alookup rest key

/-- Update in an insertion-ordered association list (JS `obj[key] = v`):
an existing key keeps its position, a new key is appended at the end. -/
def aset {α : Type} : List (String × α) → String → α → List (String × α)
  | [], key, v => [(key, v)]
  | (k, w) :: rest, key, v =>
      if k = key then (key, v) :: rest else (k, w) :: aset rest key v

/-- Lookup with default `0`, for the pattern frequency table. -/
def lookupD (l : List (String × ℕ)) (key : String) : ℕ :=
  (alookup l key).getD 0

theorem alookup_aset_self {α : Type} (l : List (String × α)) (k : String) (v : α) :
    alookup (aset l k v) k = some v := by
  induction l with
  | nil => simp [aset, alookup]
  | cons p rest ih =>
      obtain ⟨k0, v0⟩ := p
      by_cases h : k0 = k
      · simp [aset, alookup, h]
      · simp [aset, alookup, h, ih]

theorem alookup_aset_ne {α : Type} (l : List (String × α)) (k k' : String) (v : α)
    (h : k ≠ k') : alookup (aset l k v) k' = alookup l k' := by
  induction l with
  | nil => simp [aset, alookup, h]
  | cons p rest ih =>
      obtain ⟨k0, v0⟩ := p
      by_cases h0 : k0 = k
      · subst h0
        simp [aset, alookup, h]
      · simp [aset, alookup, h0, ih]

/-! ## Comma-joined keys

Pattern keys are JS strings built with `Array.prototype.join(',')` and read
back with `String.prototype.split(',')`.  `splitCharList`/`joinCharList`
model these on character lists. -/

def splitCharList (c : Char) : List Char → List (List Char)
  | [] => [[]]
  | x :: xs =>
      let r := splitCharList c xs
      if x = c then [] :: r
      else
        match r with
        | [] => [[x]]
        | h :: t => (x :: h) :: t

def joinCharList (c : Char) : List (List Char) → List Char
  | [] => []
  | [x] => x
  | x :: xs => x ++ c :: joinCharList c xs

/-- JS `s.split(',')`. -/
def splitComma (s : String) : List String :=
  (splitCharList ',' s.data).map String.mk

/-- JS `array.join(',')`. -/
def joinComma (l : List String) : String :=
  String.mk (joinCharList ',' (l.map String.data))

theorem splitCharList_ne_nil (c : Char) (l : List Char) : splitCharList c l ≠ [] := by
  cases l with
  | nil => simp [splitCharList]
  | cons x xs =>
      simp only [splitCharList]
      by_cases h : x = c
      · simp [h]
      · simp only [if_neg h]
        cases splitCharList c xs with
        | nil => simp
        | cons h0 t0 => simp

theorem joinCharList_splitCharList (c : Char) (l : List Char) :
    joinCharList c (splitCharList c l) = l := by
  induction l with
  | nil => simp [splitCharList, joinCharList]
  | cons x xs ih =>
      simp only [splitCharList]
      by_cases h : x = c
      · subst h
        simp only [if_pos rfl]
        rcases hr : splitCharList x xs with _ | ⟨h0, t0⟩
        · exact absurd hr (splitCharList_ne_nil x xs)
        · rw [hr] at ih
          simp [joinCharList, ih]
      · simp only [if_neg h]
        rcases hr : splitCharList c xs with _ | ⟨h0, t0⟩
        · exact absurd hr (splitCharList_ne_nil c xs)
        · rw [hr] at ih
          cases t0 with
          | nil => simp_all [joinCharList]
          | cons h1 t1 => simp_all [joinCharList]

theorem data_mk (l : List Char) : (String.mk l).data = l := rfl

theorem map_data_map_mk (l : List (List Char)) :
    (l.map String.mk).map String.data = l := by
  induction l with
  | nil => rfl
  | cons a t ih => simp [data_mk, ih]

/-- Splitting then re-joining with the same separator is the identity, so
`savePattern` stores under exactly the key that `analyzeHistoricalPatterns`
counted. -/
theorem joinComma_splitComma (s : String) : joinComma (splitComma s) = s := by
  have h : (splitComma s).map String.data = splitCharList ',' s.data :=
    map_data_map_mk _
  cases s with
  | mk data =>
      simp only [joinComma, h]
      rw [joinCharList_splitCharList]

/-! ## String similarity (`src/utils/helpers.ts`, `stringSimilarity`)

The DP matrix in `stringSimilarity` fills `matrix[i][j]` with
`min(matrix[i-1][j] + 1, matrix[i][j-1] + 1, matrix[i-1][j-1] + cost)`
over base rows `matrix[i][0] = i`, `matrix[0][j] = j`: the standard
Levenshtein recurrence, embedded here as a recursive function. -/

def levenshtein : List Char → List Char → ℕ
  | [], ys => ys.length
  | x :: xs, [] => (x :: xs).length
  | x :: xs, y :: ys =>
      min (levenshtein xs (y :: ys) + 1)
        (min (levenshtein (x :: xs) ys + 1)
          (levenshtein xs ys + (if x = y then 0 else 1)))
termination_by xs ys => xs.length + ys.length
decreasing_by all_goals (simp only [List.length_cons]; omega)

theorem levenshtein_nil_right (xs : List Char) : levenshtein xs [] = xs.length := by
  cases xs with
  | nil => simp [levenshtein]
  | cons x l => simp [levenshtein]

theorem levenshtein_self (xs : List Char) : levenshtein xs xs = 0 := by
  induction xs with
  | nil => simp [levenshtein]
  | cons x l ih =>
      have h3 : levenshtein (x :: l) (x :: l) ≤ levenshtein l l + (if x = x then 0 else 1) := by
        rw [levenshtein]
        exact le_trans (min_le_right _ _) (min_le_right _ _)
      have hc : (if x = x then (0 : ℕ) else 1) = 0 := by simp
      rw [hc, ih] at h3
      omega

theorem levenshtein_eq_zero {xs ys : List Char} (h : levenshtein xs ys = 0) : xs = ys := by
  induction xs generalizing ys with
  | nil =>
      simp only [levenshtein] at h
      exact (List.eq_nil_of_length_eq_zero h).symm
  | cons x l ihx =>
      induction ys with
      | nil => simp [levenshtein] at h
      | cons y m ihy =>
          rw [levenshtein] at h
          by_cases hxy : x = y
          · subst hxy
            have hc : (if x = x then (0 : ℕ) else 1) = 0 := by simp
            rw [hc] at h
            have h3 : levenshtein l m = 0 := by omega
            rw [ihx h3]
          · have hc : (if x = y then (0 : ℕ) else 1) = 1 := by simp [hxy]
            rw [hc] at h
            omega

theorem levenshtein_le_max (xs ys : List Char) :
    levenshtein xs ys ≤ max xs.length ys.length := by
  induction xs generalizing ys with
  | nil =>
      simp only [levenshtein, List.length_nil]
      omega
  | cons x l ihx =>
      induction ys with
      | nil =>
          rw [levenshtein_nil_right]
          omega
      | cons y m ihy =>
          have hstep : levenshtein (x :: l) (y :: m) ≤
              levenshtein l m + (if x = y then 0 else 1) := by
            rw [levenshtein]
            exact le_trans (min_le_right _ _) (min_le_right _ _)
          have h3 := ihx m
          have hc : (if x = y then (0 : ℕ) else 1) ≤ 1 := by split <;> omega
          simp only [List.length_cons]
          omega

theorem levenshtein_symm (xs ys : List Char) :
    levenshtein xs ys = levenshtein ys xs := by
  induction xs generalizing ys with
  | nil => simp [levenshtein, levenshtein_nil_right]
  | cons x l ihx =>
      induction ys with
      | nil => simp [levenshtein, levenshtein_nil_right]
      | cons y m ihy =>
          rw [levenshtein, levenshtein]
          have h1 := ihx (y :: m)
          have h2 := ihy
          have h3 := ihx m
          have hc : (if x = y then (0 : ℕ) else 1) = (if y = x then 0 else 1) := by
            by_cases hxy : x = y
            · simp [hxy]
            · have hyx : ¬y = x := fun hh => hxy hh.symm
              simp [hxy, hyx]
          rw [hc, h1, h2, h3]
          omega

/-- `levenshtein` of two lists that agree except at their final character. -/
theorem levenshtein_last_diff (l : List Char) (c d : Char) :
    levenshtein (l ++ [c]) (l ++ [d]) ≤ 1 := by
  induction l with
  | nil =>
      rw [List.nil_append, List.nil_append, levenshtein]
      have h3 : levenshtein [] ([] : List Char) + (if c = d then 0 else 1) ≤ 1 := by
        simp only [levenshtein, List.length_nil]
        split <;> omega
      exact le_trans (min_le_right _ _) (le_trans (min_le_right _ _) h3)
  | cons a l ih =>
      rw [List.cons_append, List.cons_append, levenshtein]
      have h3 : levenshtein (l ++ [c]) (l ++ [d]) + (if a = a then 0 else 1) ≤ 1 := by
        simp only [if_pos rfl, Nat.add_zero]
        exact ih
      exact le_trans (min_le_right _ _) (le_trans (min_le_right _ _) h3)

/-- `stringSimilarity(a, b)` from `helpers.ts`: `1` on equal strings, `0`
when either is empty, otherwise `1 - levenshtein / max(length)`. -/
def stringSimilarity (a b : String) : ℚ :=
  if a = b then 1
  else if a.length = 0 ∨ b.length = 0 then 0
  else 1 - (levenshtein a.data b.data : ℚ) / (max a.length b.length : ℕ)

theorem string_eq_of_data_eq {a b : String} (h : a.data = b.data) : a = b := by
  cases a
  cases b
  exact congrArg String.mk h

theorem stringSimilarity_self (a : String) : stringSimilarity a a = 1 := by
  simp [stringSimilarity]

theorem stringSimilarity_bounds (a b : String) :
    0 ≤ stringSimilarity a b ∧ stringSimilarity a b ≤ 1 := by
  unfold stringSimilarity
  by_cases hab : a = b
  · rw [if_pos hab]
    norm_num
  · rw [if_neg hab]
    by_cases hz : a.length = 0 ∨ b.length = 0
    · rw [if_pos hz]
      norm_num
    · rw [if_neg hz]
      have hm : 0 < max a.length b.length := by
        push_neg at hz
        omega
      have hcast : (0 : ℚ) < ((max a.length b.length : ℕ) : ℚ) := by
        exact_mod_cast hm
      have hle : (levenshtein a.data b.data : ℚ) ≤ ((max a.length b.length : ℕ) : ℚ) := by
        exact_mod_cast levenshtein_le_max a.data b.data
      have hq0 : (0 : ℚ) ≤ (levenshtein a.data b.data : ℚ) / ((max a.length b.length : ℕ) : ℚ) :=
        div_nonneg (by positivity) (le_of_lt hcast)
      have hq1 : (levenshtein a.data b.data : ℚ) / ((max a.length b.length : ℕ) : ℚ) ≤ 1 := by
        rw [div_le_one hcast]
        exact hle
      constructor
      · linarith
      · linarith

theorem stringSimilarity_comm (a b : String) :
    stringSimilarity a b = stringSimilarity b a := by
  unfold stringSimilarity
  by_cases hab : a = b
  · simp [hab]
  · have hba : ¬b = a := fun h => hab h.symm
    rw [if_neg hab, if_neg hba]
    by_cases hz : a.length = 0 ∨ b.length = 0
    · rw [if_pos hz, if_pos (Or.symm hz)]
    · rw [if_neg hz, if_neg (fun h => hz (Or.symm h))]
      rw [levenshtein_symm a.data b.data, Nat.max_comm a.length b.length]

theorem stringSimilarity_eq_one_iff (a b : String) :
    stringSimilarity a b = 1 ↔ a = b := by
  constructor
  · intro h
    by_contra hab
    unfold stringSimilarity at h
    rw [if_neg hab] at h
    by_cases hz : a.length = 0 ∨ b.length = 0
    · rw [if_pos hz] at h
      norm_num at h
    · rw [if_neg hz] at h
      have hm : 0 < max a.length b.length := by
        push_neg at hz
        omega
      have hcast : (0 : ℚ) < ((max a.length b.length : ℕ) : ℚ) := by
        exact_mod_cast hm
      have hq : (levenshtein a.data b.data : ℚ) / ((max a.length b.length : ℕ) : ℚ) = 0 := by
        linarith
      have hlev : (levenshtein a.data b.data : ℚ) = 0 := by
        rcases div_eq_zero_iff.mp hq with h0 | h0
        · exact h0
        · exact absurd h0 (ne_of_gt hcast)
      have hlev0 : levenshtein a.data b.data = 0 := by
        exact_mod_cast hlev
      exact hab (string_eq_of_data_eq (levenshtein_eq_zero hlev0))
  · intro h
    subst h
    exact stringSimilarity_self a

/-- C9: for all strings `a` and `b`, `stringSimilarity a b` lies in `[0, 1]`,
is symmetric, and equals `1` exactly when `a = b`. -/
theorem C9_stringSimilarity_algebra (a b : String) :
    (0 ≤ stringSimilarity a b ∧ stringSimilarity a b ≤ 1) ∧
    stringSimilarity a b = stringSimilarity b a ∧
    (stringSimilarity a b = 1 ↔ a = b) :=
  ⟨stringSimilarity_bounds a b, stringSimilarity_comm a b, stringSimilarity_eq_one_iff a b⟩

/-! ## Pattern engine (`src/core/PatternEngine.ts`)

The engine instance state together with the storage it reads/writes
(`cell_request_history`, `cell_patterns`, `cell_actions`). -/

structure CellOptions where
  maxPatternLength : ℕ := 10
  maxStoredPatterns : ℕ := 1000
deriving DecidableEq

structure EngineState where
  isRunning : Bool
  currentSequence : List NetworkRequest
  requestHistory : List NetworkRequest
  patterns : List (String × ℕ)
  actionCache : List (String × Action)
  patternAnalysisTimer : Bool
deriving DecidableEq

/-- JS `pattern.startsWith(lookupPattern)`: character-level prefix test. -/
def strStartsWith (s pre : String) : Bool :=
  pre.data.isPrefixOf s.data

/-- `saveRequest` from the storage helpers: append, then trim the oldest
entries beyond `maxItems`. -/
def saveRequest (history : List NetworkRequest) (request : NetworkRequest)
    (maxItems : ℕ) : List NetworkRequest :=
  let h := history ++ [request]
  if maxItems < h.length then h.drop (h.length - maxItems) else h

/-- `savePattern` from the storage helpers: re-join the id list and add
`frequency` to the stored count.  The source's `if (patterns[patternKey])`
`+= frequency` / `else = frequency` branches collapse to "current count with
default 0, plus `frequency`". -/
def savePattern (patterns : List (String × ℕ)) (pattern : List String)
    (frequency : ℕ) : List (String × ℕ) :=
  let patternKey := joinComma pattern
  aset patterns patternKey (lookupD patterns patternKey + frequency)

def getContextDescription (currentSequence : List NetworkRequest) : String :=
  match currentSequence.getLast? with
  | none => ""
  | some lastRequest => "After " ++ lastRequest.method ++ " request to " ++ lastRequest.url

/-- `createPrediction`: resolve the action id through the cache, deriving and
caching an `api` action from request history on a miss; `none` when the id is
absent (including the JS `undefined` index produced by a too-short key). -/
def createPrediction (st : EngineState) :
    Option String → ℚ → Option (Prediction × EngineState)
  | none, _ => none
  | some aid, confidence =>
      match alookup st.actionCache aid with
      | some action =>
          some ({ confidence := confidence, action := action,
                  context := getContextDescription st.currentSequence }, st)
      | none =>
          match st.requestHistory.find? (fun req => req.id == aid) with
          | none => none
          | some request =>
              let action : Action :=
                { id := aid, type := "api",
                  description := request.method ++ " " ++ request.url,
                  url := some request.url }
              some ({ confidence := confidence, action := action,
                      context := getContextDescription st.currentSequence },
                    { st with actionCache := aset st.actionCache aid action })

/-- `calculateConfidence`: weighted blend of capped frequency, capped token
count of the pattern key, and the recency factor.  `recencyFactor` stands for
the value `calculateRecencyFactor()` returned for the current sequence (the
real-valued exponential is modelled separately below). -/
def calculateConfidence (pattern : String) (frequency : ℕ) (recencyFactor : ℚ) : ℚ :=
  let frequencyFactor : ℚ := min ((frequency : ℚ) / 10) 1
  let lengthFactor : ℚ := min (((splitComma pattern).length : ℚ) / 10) 1
  frequencyFactor * 0.6 + lengthFactor * 0.3 + recencyFactor * 0.1

/-- The `for (const pattern in patterns)` scan of `predictNextAction` for one
`patternLength`: first stored key (in insertion order) that extends the
lookup key, clears the `0.3` confidence threshold, and yields a non-null
prediction.  The matched key is returned alongside the prediction. -/
def scanPatterns (st : EngineState) (recency : ℚ) (lookupPattern : String)
    (patternLength : ℕ) : List (String × ℕ) → Option (String × Prediction × EngineState)
  | [] => none
  | (pattern, frequency) :: rest =>
      if strStartsWith pattern lookupPattern && pattern != lookupPattern then
        if calculateConfidence pattern frequency recency ≥ 0.3 then
          match createPrediction st ((splitComma pattern).get? patternLength)
              (calculateConfidence pattern frequency recency) with
          | some (p, st2) => some (pattern, p, st2)
          | none => scanPatterns st recency lookupPattern patternLength rest
        else scanPatterns st recency lookupPattern patternLength rest
      else scanPatterns st recency lookupPattern patternLength rest

/-- The outer loop of `predictNextAction`: pattern lengths from
`min(length - 1, maxPatternLength)` down to `2`. -/
def tryPatternLengths (st : EngineState) (recency : ℚ) (sequenceIds : List String) :
    ℕ → Option (String × ℕ × Prediction × EngineState)
  | 0 => none
  | 1 => none
  | n + 2 =>
      let patternLength := n + 2
      let lookupPattern := joinComma (sequenceIds.drop (sequenceIds.length - patternLength))
      match scanPatterns st recency lookupPattern patternLength st.patterns with
      | some (pattern, p, st2) => some (pattern, patternLength, p, st2)
      | none => tryPatternLengths st recency sequenceIds (n + 1)

/-- The similarity score `urlSimilarity * 0.8 + methodSimilarity * 0.2`
computed by `fuzzyMatchAction`. -/
def totalSimilarity (request lastRequest : NetworkRequest) : ℚ :=
  let urlSimilarity := stringSimilarity request.url lastRequest.url
  let methodSimilarity : ℚ := if request.method = lastRequest.method then 1 else 0
  urlSimilarity * 0.8 + methodSimilarity * 0.2

/-- History events kept by the fuzzy fallback: id differs from the last
request and total similarity exceeds `0.8`. -/
def similarRequestsOf (history : List NetworkRequest) (lastRequest : NetworkRequest) :
    List NetworkRequest :=
  history.filter (fun request =>
    request.id != lastRequest.id && decide (totalSimilarity request lastRequest > 0.8))

/-- The event immediately following a similar event in the request history,
located (as in the source) through `findIndex` on the id. -/
def followerOf (history : List NetworkRequest) (similarRequest : NetworkRequest) :
    Option NetworkRequest :=
  match history.findIdx? (fun req => req.id == similarRequest.id) with
  | none => none
  | some index => if index < history.length - 1 then history.get? (index + 1) else none

/-- The `nextActions` tally and `totalOccurrences` accumulated by
`fuzzyMatchAction`. -/
def nextActionsOf (history : List NetworkRequest) (similar : List NetworkRequest) :
    List (String × ℕ) × ℕ :=
  similar.foldl
    (fun acc similarRequest =>
      match followerOf history similarRequest with
      | some nextRequest =>
          (aset acc.1 nextRequest.id (lookupD acc.1 nextRequest.id + 1), acc.2 + 1)
      | none => acc)
    ([], 0)

/-- The `bestActionId`/`bestCount` selection loop of `fuzzyMatchAction`:
first entry strictly exceeding the running best. -/
def pickBest (nextActions : List (String × ℕ)) : Option String × ℕ :=
  nextActions.foldl
    (fun best entry => if best.2 < entry.2 then (some entry.1, entry.2) else best)
    (none, 0)

/-- The body of `fuzzyMatchAction` once the last request of the current
sequence is in hand: keep similar history events, tally their immediate
followers, and predict the most common follower with confidence
`bestCount / totalOccurrences` (the `if (bestActionId)` guard of the source
is JS-falsy, so a `null` or empty-string best id yields nothing). -/
def fuzzyCore (st : EngineState) (lastRequest : NetworkRequest) :
    Option (Prediction × EngineState) :=
  if (similarRequestsOf st.requestHistory lastRequest).length = 0 then none
  else
    if (nextActionsOf st.requestHistory
        (similarRequestsOf st.requestHistory lastRequest)).2 = 0 then none
    else
      match pickBest (nextActionsOf st.requestHistory
          (similarRequestsOf st.requestHistory lastRequest)).1 with
      | (some bestActionId, bestCount) =>
          if bestActionId = "" then none
          else createPrediction st (some bestActionId)
            ((bestCount : ℚ) / ((nextActionsOf st.requestHistory
                (similarRequestsOf st.requestHistory lastRequest)).2 : ℚ))
      | (none, _) => none

/-- `fuzzyMatchAction`: similarity-based fallback over the request history. -/
def fuzzyMatchAction (st : EngineState) : Option (Prediction × EngineState) :=
  if st.currentSequence.length < 2 then none
  else
    match st.currentSequence.getLast? with
    | none => none
    | some lastRequest => fuzzyCore st lastRequest

/-- `predictNextAction`: exact n-gram scan over decreasing pattern lengths,
then the fuzzy fallback.  The returned prediction is the one handed to the
prediction callbacks. -/
def predictNextAction (opts : CellOptions) (recency : ℚ) (st : EngineState) :
    Option (Prediction × EngineState) :=
  if st.currentSequence.length < 2 then none
  else
    let sequenceIds := st.currentSequence.map (fun r => r.id)
    match tryPatternLengths st recency sequenceIds
        (min (st.currentSequence.length - 1) opts.maxPatternLength) with
    | some (_, _, p, st2) => some (p, st2)
    | none => fuzzyMatchAction st

/-- `addRequest`: no-op unless running; otherwise persist the request, extend
and trim the current sequence, predict, and schedule the background analysis
timer if none is pending. -/
def addRequest (opts : CellOptions) (recency : ℚ) (st : EngineState)
    (request : NetworkRequest) : EngineState × Option Prediction :=
  if st.isRunning = false then (st, none)
  else
    let st1 := { st with
      requestHistory := saveRequest st.requestHistory request opts.maxStoredPatterns }
    let seq1 := st1.currentSequence ++ [request]
    let seq2 := if opts.maxPatternLength < seq1.length then seq1.tail else seq1
    let st2 := { st1 with currentSequence := seq2 }
    let next :=
      match predictNextAction opts recency st2 with
      | some (p, st3) => (st3, some p)
      | none => (st2, none)
    let st4 :=
      if next.1.patternAnalysisTimer then next.1
      else { next.1 with patternAnalysisTimer := true }
    (st4, next.2)

/-- All n-gram keys produced by one `analyzeHistoricalPatterns` pass: for
each pattern length `2..maxPatternLength`, each window of that length over
the history. -/
def windowKeys (history : List NetworkRequest) (maxPatternLength : ℕ) : List String :=
  ((List.range (maxPatternLength + 1)).drop 2).flatMap (fun patternLength =>
    (List.range (history.length + 1 - patternLength)).map (fun i =>
      joinComma (((history.drop i).take patternLength).map (fun r => r.id))))

/-- The in-pass tally of `analyzeHistoricalPatterns`. -/
def countNGrams (history : List NetworkRequest) (maxPatternLength : ℕ) :
    List (String × ℕ) :=
  (windowKeys history maxPatternLength).foldl
    (fun patterns pattern => aset patterns pattern (lookupD patterns pattern + 1)) []

/-- `analyzeHistoricalPatterns`: count every n-gram of the history and merge
the tallies additively into the stored pattern table via `savePattern`. -/
def analyzeHistoricalPatterns (opts : CellOptions) (st : EngineState) : EngineState :=
  if st.isRunning = false then st
  else
    let merged := (countNGrams st.requestHistory opts.maxPatternLength).foldl
      (fun patterns entry => savePattern patterns (splitComma entry.1) entry.2)
      st.patterns
    { st with patterns := merged }

/-! ## Frequency-table lemmas -/

theorem lookupD_aset_self (l : List (String × ℕ)) (k : String) (v : ℕ) :
    lookupD (aset l k v) k = v := by
  simp [lookupD, alookup_aset_self]

theorem lookupD_aset_ne (l : List (String × ℕ)) (k k' : String) (v : ℕ)
    (h : k ≠ k') : lookupD (aset l k v) k' = lookupD l k' := by
  simp [lookupD, alookup_aset_ne _ _ _ _ h]

theorem savePattern_lookupD (patterns : List (String × ℕ)) (toks : List String)
    (freq : ℕ) (key : String) :
    lookupD (savePattern patterns toks freq) key =
      lookupD patterns key + (if joinComma toks = key then freq else 0) := by
  unfold savePattern
  by_cases hk : joinComma toks = key
  · subst hk
    rw [lookupD_aset_self, if_pos rfl]
  · rw [lookupD_aset_ne _ _ _ _ hk, if_neg hk]
    omega

/-- The per-key total contributed by a list of `(key, frequency)` entries. -/
def keySum (entries : List (String × ℕ)) (key : String) : ℕ :=
  (entries.map (fun e => if e.1 = key then e.2 else 0)).sum

theorem lookupD_foldl_savePattern (entries : List (String × ℕ))
    (patterns : List (String × ℕ)) (key : String) :
    lookupD (entries.foldl
        (fun ps e => savePattern ps (splitComma e.1) e.2) patterns) key =
      lookupD patterns key + keySum entries key := by
  induction entries generalizing patterns with
  | nil => simp [keySum]
  | cons e es ih =>
      simp only [List.foldl_cons]
      rw [ih, savePattern_lookupD, joinComma_splitComma]
      simp only [keySum, List.map_cons, List.sum_cons]
      omega

theorem lookupD_foldl_bump (keys : List String) (t : List (String × ℕ)) (key : String) :
    lookupD (keys.foldl
        (fun patterns pattern => aset patterns pattern (lookupD patterns pattern + 1)) t) key =
      lookupD t key + keys.count key := by
  induction keys generalizing t with
  | nil => simp
  | cons k ks ih =>
      simp only [List.foldl_cons]
      rw [ih]
      by_cases hk : k = key
      · subst hk
        rw [lookupD_aset_self]
        simp only [List.count_cons]
        simp
        omega
      · rw [lookupD_aset_ne _ _ _ _ hk]
        have hk' : ¬(key = k) := fun h => hk h.symm
        simp only [List.count_cons]
        simp [hk', hk]

/-- Keys of an association list are pairwise distinct (the JS-object
invariant, preserved by `aset`). -/
def KeyUnique (l : List (String × ℕ)) : Prop := (l.map Prod.fst).Nodup

theorem mem_keys_aset (l : List (String × ℕ)) (k : String) (v : ℕ) (x : String)
    (h : x ∈ (aset l k v).map Prod.fst) : x ∈ l.map Prod.fst ∨ x = k := by
  induction l with
  | nil =>
      simp [aset] at h
      exact Or.inr h
  | cons p rest ih =>
      obtain ⟨k0, v0⟩ := p
      by_cases h0 : k0 = k
      · simp [aset, h0] at h
        rcases h with h | h
        · exact Or.inr h
        · exact Or.inl (by simp [h])
      · simp [aset, h0] at h
        rcases h with h | h
        · exact Or.inl (by simp [h])
        · rcases ih (by simpa using h) with h2 | h2
          · exact Or.inl (by simp; exact Or.inr (by simpa using h2))
          · exact Or.inr h2

theorem KeyUnique_aset (l : List (String × ℕ)) (k : String) (v : ℕ)
    (h : KeyUnique l) : KeyUnique (aset l k v) := by
  induction l with
  | nil => simp [KeyUnique, aset]
  | cons p rest ih =>
      obtain ⟨k0, v0⟩ := p
      unfold KeyUnique at h
      simp only [List.map_cons, List.nodup_cons] at h
      by_cases h0 : k0 = k
      · subst h0
        unfold KeyUnique
        simp [aset, List.nodup_cons, h.1, h.2]
      · unfold KeyUnique
        simp only [aset, if_neg h0, List.map_cons, List.nodup_cons]
        constructor
        · intro hmem
          rcases mem_keys_aset rest k v k0 hmem with h2 | h2
          · exact h.1 h2
          · exact h0 h2
        · exact ih h.2

theorem lookupD_eq_zero_of_not_mem (l : List (String × ℕ)) (key : String)
    (h : key ∉ l.map Prod.fst) : lookupD l key = 0 := by
  induction l with
  | nil => simp [lookupD, alookup]
  | cons p rest ih =>
      obtain ⟨k0, v0⟩ := p
      simp only [List.map_cons, List.mem_cons] at h
      push_neg at h
      have hne : k0 ≠ key := fun hh => h.1 hh.symm
      simp only [lookupD, alookup, if_neg hne]
      exact ih h.2

theorem keySum_eq_zero_of_not_mem (l : List (String × ℕ)) (key : String)
    (h : key ∉ l.map Prod.fst) : keySum l key = 0 := by
  induction l with
  | nil => simp [keySum]
  | cons p rest ih =>
      obtain ⟨k0, v0⟩ := p
      simp only [List.map_cons, List.mem_cons] at h
      push_neg at h
      have hne : k0 ≠ key := fun hh => h.1 hh.symm
      simp [keySum, hne, List.map_cons, List.sum_cons]
      simpa [keySum] using ih h.2

theorem keySum_eq_lookupD (l : List (String × ℕ)) (key : String)
    (h : KeyUnique l) : keySum l key = lookupD l key := by
  induction l with
  | nil => simp [keySum, lookupD, alookup]
  | cons p rest ih =>
      obtain ⟨k0, v0⟩ := p
      unfold KeyUnique at h
      simp only [List.map_cons, List.nodup_cons] at h
      by_cases hk : k0 = key
      · subst hk
        have hz : keySum rest k0 = 0 := keySum_eq_zero_of_not_mem rest k0 h.1
        simp [keySum, lookupD, alookup, List.map_cons, List.sum_cons]
        simpa [keySum] using hz
      · simp only [keySum, List.map_cons, List.sum_cons, if_neg hk, Nat.zero_add,
          lookupD, alookup, if_neg hk]
        simpa [keySum, lookupD] using ih h.2

theorem KeyUnique_foldl_bump (keys : List String) (t : List (String × ℕ))
    (h : KeyUnique t) :
    KeyUnique (keys.foldl
      (fun patterns pattern => aset patterns pattern (lookupD patterns pattern + 1)) t) := by
  induction keys generalizing t with
  | nil => exact h
  | cons k ks ih => exact ih _ (KeyUnique_aset _ _ _ h)

theorem KeyUnique_countNGrams (history : List NetworkRequest) (maxPatternLength : ℕ) :
    KeyUnique (countNGrams history maxPatternLength) :=
  KeyUnique_foldl_bump _ _ (by simp [KeyUnique])

theorem lookupD_countNGrams (history : List NetworkRequest) (maxPatternLength : ℕ)
    (key : String) :
    lookupD (countNGrams history maxPatternLength) key =
      (windowKeys history maxPatternLength).count key := by
  unfold countNGrams
  rw [lookupD_foldl_bump]
  simp [lookupD, alookup]

/-! ## Claim C10: `addRequest` on a stopped engine -/

/-- C10: when the engine is not running, `addRequest` is a complete no-op:
the state (current sequence, request history, pattern store, action cache,
analysis-timer flag) is returned unchanged and no prediction is emitted. -/
theorem C10_addRequest_noop_when_stopped (opts : CellOptions) (recency : ℚ)
    (st : EngineState) (request : NetworkRequest) (h : st.isRunning = false) :
    addRequest opts recency st request = (st, none) := by
  simp [addRequest, h]

def reqA : NetworkRequest := { id := "A", url := "/a", method := "GET", timestamp := 0 }

def reqB : NetworkRequest := { id := "B", url := "/b", method := "GET", timestamp := 0 }

def reqC : NetworkRequest := { id := "C", url := "/c", method := "POST", timestamp := 0 }

def reqD : NetworkRequest := { id := "D", url := "/d", method := "GET", timestamp := 0 }

/-- A stopped engine with non-trivial content in every component. -/
def stoppedState : EngineState :=
  { isRunning := false,
    currentSequence := [reqA, reqB],
    requestHistory := [reqA, reqB, reqC],
    patterns := [("A,B", 3)],
    actionCache := [("A", { id := "A", type := "api", description := "GET /a" })],
    patternAnalysisTimer := false }

theorem C10_addRequest_noop_witness :
    stoppedState.isRunning = false ∧
    addRequest {} 1 stoppedState reqD = (stoppedState, none) :=
  ⟨rfl, C10_addRequest_noop_when_stopped {} 1 stoppedState reqD rfl⟩

/-! ## Claim C4: the rebuild adds this pass's occurrence counts -/

/-- C4: a rebuild (`analyzeHistoricalPatterns`) of a running engine maps each
stored pattern key to its old count plus the number of occurrences of that
n-gram among the windows scanned in this pass; in particular no stored count
ever decreases, and counts accumulate additively across repeated rebuilds. -/
theorem C4_rebuild_adds_pass_counts (opts : CellOptions) (st : EngineState)
    (h : st.isRunning = true) (key : String) :
    lookupD (analyzeHistoricalPatterns opts st).patterns key =
      lookupD st.patterns key +
        (windowKeys st.requestHistory opts.maxPatternLength).count key ∧
    lookupD st.patterns key ≤ lookupD (analyzeHistoricalPatterns opts st).patterns key := by
  have hrun : ¬(st.isRunning = false) := by simp [h]
  have hmain : lookupD (analyzeHistoricalPatterns opts st).patterns key =
      lookupD st.patterns key +
        (windowKeys st.requestHistory opts.maxPatternLength).count key := by
    unfold analyzeHistoricalPatterns
    rw [if_neg hrun]
    simp only
    rw [lookupD_foldl_savePattern]
    rw [keySum_eq_lookupD _ _ (KeyUnique_countNGrams _ _)]
    rw [lookupD_countNGrams]
  exact ⟨hmain, by omega⟩

/-- A running engine whose history contains the 2-gram `A,B` twice. -/
def runningState : EngineState :=
  { isRunning := true,
    currentSequence := [],
    requestHistory := [reqA, reqB, reqA, reqB],
    patterns := [("A,B", 3)],
    actionCache := [],
    patternAnalysisTimer := false }

def smallOpts : CellOptions := { maxPatternLength := 2, maxStoredPatterns := 1000 }

theorem C4_rebuild_adds_pass_counts_witness :
    runningState.isRunning = true ∧
    (lookupD (analyzeHistoricalPatterns smallOpts runningState).patterns "A,B" =
        lookupD runningState.patterns "A,B" +
          (windowKeys runningState.requestHistory smallOpts.maxPatternLength).count "A,B" ∧
      lookupD runningState.patterns "A,B" ≤
        lookupD (analyzeHistoricalPatterns smallOpts runningState).patterns "A,B") ∧
    lookupD (analyzeHistoricalPatterns smallOpts runningState).patterns "A,B" = 5 :=
  ⟨rfl, C4_rebuild_adds_pass_counts smallOpts runningState rfl "A,B", by decide⟩

/-! ## Claim C1: result of the per-length pattern scan -/

/-- A stored entry qualifies for the scan when its key strictly extends the
lookup key, its confidence clears the `0.3` threshold, and its continuation
yields a non-null prediction. -/
def qualifyingEntry (st : EngineState) (recency : ℚ) (lookupPattern : String)
    (patternLength : ℕ) (entry : String × ℕ) : Bool :=
  (strStartsWith entry.1 lookupPattern && entry.1 != lookupPattern) &&
    decide (calculateConfidence entry.1 entry.2 recency ≥ 0.3) &&
    (createPrediction st ((splitComma entry.1).get? patternLength)
        (calculateConfidence entry.1 entry.2 recency)).isSome

theorem scanPatterns_eq_find (st : EngineState) (recency : ℚ) (lookupPattern : String)
    (patternLength : ℕ) (entries : List (String × ℕ)) :
    scanPatterns st recency lookupPattern patternLength entries =
      (entries.find? (qualifyingEntry st recency lookupPattern patternLength)).bind
        (fun e => (createPrediction st ((splitComma e.1).get? patternLength)
            (calculateConfidence e.1 e.2 recency)).map (fun pr => (e.1, pr.1, pr.2))) := by
  induction entries with
  | nil => rfl
  | cons e rest ih =>
      obtain ⟨pattern, frequency⟩ := e
      by_cases h1 : (strStartsWith pattern lookupPattern && (pattern != lookupPattern)) = true
      · by_cases h2 : calculateConfidence pattern frequency recency ≥ 0.3
        · cases hcp : createPrediction st ((splitComma pattern).get? patternLength)
              (calculateConfidence pattern frequency recency) with
          | some pr =>
              have hq : qualifyingEntry st recency lookupPattern patternLength
                  (pattern, frequency) = true := by
                simp only [qualifyingEntry, h1, decide_eq_true h2, hcp,
                  Option.isSome_some, Bool.and_true, Bool.true_and]
              rw [scanPatterns, if_pos h1, if_pos h2, hcp,
                List.find?_cons_of_pos _ hq]
              show some (pattern, pr.1, pr.2) =
                (createPrediction st ((splitComma pattern).get? patternLength)
                  (calculateConfidence pattern frequency recency)).map
                    (fun q => (pattern, q.1, q.2))
              rw [hcp]
              rfl
          | none =>
              have hq : qualifyingEntry st recency lookupPattern patternLength
                  (pattern, frequency) = false := by
                simp only [qualifyingEntry, hcp, Option.isSome_none, Bool.and_false]
              rw [scanPatterns, if_pos h1, if_pos h2, hcp,
                List.find?_cons_of_neg _ (by simp [hq])]
              exact ih
        · have hq : qualifyingEntry st recency lookupPattern patternLength
              (pattern, frequency) = false := by
            simp only [qualifyingEntry, decide_eq_false h2, Bool.and_false, Bool.false_and]
          rw [scanPatterns, if_pos h1, if_neg h2, List.find?_cons_of_neg _ (by simp [hq])]
          exact ih
      · have h1f : (strStartsWith pattern lookupPattern && (pattern != lookupPattern)) = false :=
          Bool.eq_false_iff.mpr h1
        have hq : qualifyingEntry st recency lookupPattern patternLength
            (pattern, frequency) = false := by
          simp only [qualifyingEntry, h1f, Bool.false_and]
        rw [scanPatterns, if_neg h1, List.find?_cons_of_neg _ (by simp [hq])]
        exact ih

/-- C1 (amended): the per-length scan of exact n-gram prediction returns the
first stored entry, in pattern-store iteration (insertion) order, that
qualifies (key strictly extends the lookup key, confidence at least `0.3`,
continuation derivable) — not necessarily the qualifying continuation of
highest confidence. -/
theorem C1_scan_returns_first_qualifying (st : EngineState) (recency : ℚ)
    (lookupPattern : String) (patternLength : ℕ) (entries : List (String × ℕ)) :
    scanPatterns st recency lookupPattern patternLength entries =
      (entries.find? (qualifyingEntry st recency lookupPattern patternLength)).bind
        (fun e => (createPrediction st ((splitComma e.1).get? patternLength)
            (calculateConfidence e.1 e.2 recency)).map (fun pr => (e.1, pr.1, pr.2))) :=
  scanPatterns_eq_find st recency lookupPattern patternLength entries

def reqZ : NetworkRequest := { id := "Z", url := "/z", method := "GET", timestamp := 0 }

def actX : Action := { id := "X", type := "api", description := "GET /x" }

def actY : Action := { id := "Y", type := "api", description := "GET /y" }

/-- Engine state whose store holds two qualifying continuations of the
lookup key `A,B`: `X` (count 5, confidence `0.49`) stored first and `Y`
(count 10, confidence `0.79`) stored second. -/
def c1State : EngineState :=
  { isRunning := true,
    currentSequence := [reqZ, reqA, reqB],
    requestHistory := [],
    patterns := [("A,B,X", 5), ("A,B,Y", 10)],
    actionCache := [("X", actX), ("Y", actY)],
    patternAnalysisTimer := false }

def c1Pred : Prediction :=
  { confidence := 49/100, action := actX, context := "After GET request to /b" }

theorem calculateConfidence_ABX :
    calculateConfidence "A,B,X" 5 1 = 49/100 := by
  show min ((5 : ℚ)/10) 1 * 0.6 + min (((splitComma "A,B,X").length : ℚ)/10) 1 * 0.3
      + 1 * 0.1 = 49/100
  rw [show (splitComma "A,B,X").length = 3 from by decide]
  rw [min_eq_left (by norm_num : (5 : ℚ)/10 ≤ 1),
    min_eq_left (by norm_num : ((3 : ℕ) : ℚ)/10 ≤ 1)]
  norm_num

theorem calculateConfidence_ABY :
    calculateConfidence "A,B,Y" 10 1 = 79/100 := by
  show min ((10 : ℚ)/10) 1 * 0.6 + min (((splitComma "A,B,Y").length : ℚ)/10) 1 * 0.3
      + 1 * 0.1 = 79/100
  rw [show (splitComma "A,B,Y").length = 3 from by decide]
  rw [min_eq_left (by norm_num : (10 : ℚ)/10 ≤ 1),
    min_eq_left (by norm_num : ((3 : ℕ) : ℚ)/10 ≤ 1)]
  norm_num

theorem scanPatterns_c1State :
    scanPatterns c1State 1 "A,B" 2 c1State.patterns = some ("A,B,X", c1Pred, c1State) := by
  rw [scanPatterns_eq_find]
  rw [show c1State.patterns = [("A,B,X", 5), ("A,B,Y", 10)] from rfl]
  have hq : qualifyingEntry c1State 1 "A,B" 2 ("A,B,X", 5) = true := by
    simp only [qualifyingEntry]
    rw [show (strStartsWith "A,B,X" "A,B" && ("A,B,X" != "A,B")) = true from by decide]
    rw [decide_eq_true (show calculateConfidence "A,B,X" 5 1 ≥ 0.3 from by
      rw [calculateConfidence_ABX]; norm_num)]
    rfl
  rw [List.find?_cons_of_pos _ hq]
  show (createPrediction c1State ((splitComma "A,B,X").get? 2)
      (calculateConfidence "A,B,X" 5 1)).map (fun pr => ("A,B,X", pr.1, pr.2)) = _
  rw [calculateConfidence_ABX]
  rfl

theorem tryPatternLengths_c1State :
    tryPatternLengths c1State 1 ["Z", "A", "B"] 2 = some ("A,B,X", 2, c1Pred, c1State) := by
  have hscan : scanPatterns c1State 1
      (joinComma (List.drop (["Z", "A", "B"].length - 2) ["Z", "A", "B"])) 2
      c1State.patterns = some ("A,B,X", c1Pred, c1State) := scanPatterns_c1State
  simp only [tryPatternLengths]
  rw [hscan]

theorem predictNextAction_c1State :
    predictNextAction {} 1 c1State = some (c1Pred, c1State) := by
  have htry : tryPatternLengths c1State 1
      (c1State.currentSequence.map (fun r => r.id))
      (min (c1State.currentSequence.length - 1) (CellOptions.maxPatternLength {})) =
      some ("A,B,X", 2, c1Pred, c1State) := tryPatternLengths_c1State
  rw [predictNextAction, if_neg (by decide)]
  simp only [htry]

/-- C1 counterexample: at `c1State` both stored keys `A,B,X` (confidence
`0.49`) and `A,B,Y` (confidence `0.79`) qualify for lookup key `A,B`, yet
the exact n-gram path returns the prediction for `X` — the first-stored,
strictly lower-confidence continuation — refuting "the Prediction returned
is for the qualifying continuation with the highest confidence". -/
theorem C1_highest_confidence_counterexample :
    predictNextAction {} 1 c1State = some (c1Pred, c1State) ∧
    c1Pred.action.id = "X" ∧
    c1Pred.confidence = 49/100 ∧
    strStartsWith "A,B,Y" "A,B" = true ∧
    ("A,B,Y" : String) ≠ "A,B" ∧
    calculateConfidence "A,B,Y" 10 1 = 79/100 ∧
    (0.3 : ℚ) ≤ 79/100 ∧
    c1Pred.confidence < calculateConfidence "A,B,Y" 10 1 := by
  refine ⟨predictNextAction_c1State, rfl, rfl, by decide, by decide,
    calculateConfidence_ABY, by norm_num, ?_⟩
  rw [calculateConfidence_ABY]
  show (49 : ℚ)/100 < 79/100
  norm_num

/-! ## Claim C2: shape of an exact-match prediction -/

/-- The action cache maps each id to an action carrying that id (`saveAction`
stores under `action.id`, so every cache produced by the engine satisfies
this). -/
def WFCache (cache : List (String × Action)) : Prop :=
  ∀ e ∈ cache, e.2.id = e.1

theorem alookup_mem {α : Type} (l : List (String × α)) (key : String) (v : α)
    (h : alookup l key = some v) : (key, v) ∈ l := by
  induction l with
  | nil => simp [alookup] at h
  | cons p rest ih =>
      obtain ⟨k0, v0⟩ := p
      by_cases h0 : k0 = key
      · subst h0
        simp [alookup] at h
        subst h
        exact List.mem_cons_self _ _
      · simp only [alookup, if_neg h0] at h
        exact List.mem_cons_of_mem _ (ih h)

theorem createPrediction_some_id (st : EngineState) (actionId : Option String)
    (conf : ℚ) (p : Prediction) (st2 : EngineState)
    (hWF : WFCache st.actionCache)
    (h : createPrediction st actionId conf = some (p, st2)) :
    ∃ aid, actionId = some aid ∧ p.action.id = aid ∧ p.confidence = conf := by
  cases actionId with
  | none => simp [createPrediction] at h
  | some aid =>
      refine ⟨aid, rfl, ?_⟩
      rw [createPrediction] at h
      cases hca : alookup st.actionCache aid with
      | some action =>
          rw [hca] at h
          simp only [Option.some.injEq, Prod.mk.injEq] at h
          obtain ⟨hp, _⟩ := h
          constructor
          · rw [← hp]
            exact hWF (aid, action) (alookup_mem _ _ _ hca)
          · rw [← hp]
      | none =>
          rw [hca] at h
          cases hfind : st.requestHistory.find? (fun req => req.id == aid) with
          | none =>
              rw [hfind] at h
              simp at h
          | some request =>
              rw [hfind] at h
              simp only [Option.some.injEq, Prod.mk.injEq] at h
              obtain ⟨hp, _⟩ := h
              constructor
              · rw [← hp]
              · rw [← hp]

theorem scanPatterns_some_props (st : EngineState) (recency : ℚ)
    (lookupPattern : String) (patternLength : ℕ) (entries : List (String × ℕ))
    (pat : String) (p : Prediction) (st2 : EngineState)
    (hWF : WFCache st.actionCache)
    (h : scanPatterns st recency lookupPattern patternLength entries = some (pat, p, st2)) :
    strStartsWith pat lookupPattern = true ∧ pat ≠ lookupPattern ∧
    patternLength + 1 ≤ (splitComma pat).length ∧
    (splitComma pat).get? patternLength = some p.action.id := by
  rw [scanPatterns_eq_find] at h
  cases hfind : entries.find? (qualifyingEntry st recency lookupPattern patternLength) with
  | none =>
      rw [hfind] at h
      simp at h
  | some e =>
      rw [hfind] at h
      change (createPrediction st ((splitComma e.1).get? patternLength)
          (calculateConfidence e.1 e.2 recency)).map (fun pr => (e.1, pr.1, pr.2)) =
        some (pat, p, st2) at h
      cases hcp : createPrediction st ((splitComma e.1).get? patternLength)
          (calculateConfidence e.1 e.2 recency) with
      | none =>
          rw [hcp] at h
          simp at h
      | some pr =>
          rw [hcp] at h
          simp only [Option.map_some', Option.some.injEq, Prod.mk.injEq] at h
          obtain ⟨hpat, hp, _⟩ := h
          have hqe := List.find?_some hfind
          simp only [qualifyingEntry, Bool.and_eq_true, bne_iff_ne, decide_eq_true_eq] at hqe
          obtain ⟨⟨⟨hsw, hne⟩, _⟩, _⟩ := hqe
          obtain ⟨aid, haid, hid, _⟩ :=
            createPrediction_some_id st _ _ pr.1 pr.2 hWF (by rw [hcp])
          subst hpat
          obtain ⟨hlt, _⟩ := List.get?_eq_some.mp haid
          refine ⟨hsw, hne, by omega, ?_⟩
          rw [haid, ← hp, hid]

/-- C2 (amended): every prediction produced by the exact n-gram path comes
from a stored key that has the lookup key (the last `patternLength` window
ids joined) as a strict character-level prefix and has at least
`patternLength + 1` comma-separated tokens, and the predicted continuation id
is the token at index `patternLength` of the stored key — which coincides
with "the token immediately following the matched window ids" only when the
character-level prefix match is token-aligned. -/
theorem C2_exact_match_prediction_shape (st : EngineState) (recency : ℚ)
    (sequenceIds : List String) (startLength : ℕ) (pat : String) (patternLength : ℕ)
    (p : Prediction) (st2 : EngineState)
    (hWF : WFCache st.actionCache)
    (h : tryPatternLengths st recency sequenceIds startLength =
      some (pat, patternLength, p, st2)) :
    2 ≤ patternLength ∧
    strStartsWith pat
      (joinComma (sequenceIds.drop (sequenceIds.length - patternLength))) = true ∧
    pat ≠ joinComma (sequenceIds.drop (sequenceIds.length - patternLength)) ∧
    patternLength + 1 ≤ (splitComma pat).length ∧
    (splitComma pat).get? patternLength = some p.action.id := by
  induction startLength using Nat.strong_induction_on with
  | _ n ih =>
      rcases n with _ | n1
      · simp [tryPatternLengths] at h
      · rcases n1 with _ | m
        · simp [tryPatternLengths] at h
        · rw [tryPatternLengths] at h
          cases hscan : scanPatterns st recency
              (joinComma (sequenceIds.drop (sequenceIds.length - (m + 2)))) (m + 2)
              st.patterns with
          | some r =>
              rw [hscan] at h
              obtain ⟨rpat, rp, rst⟩ := r
              simp only [Option.some.injEq, Prod.mk.injEq] at h
              obtain ⟨hpat, hlen, hp, hst⟩ := h
              subst hpat hlen hp hst
              have hprops := scanPatterns_some_props st recency _ _ _ _ _ _ hWF hscan
              exact ⟨by omega, hprops.1, hprops.2.1, hprops.2.2.1, hprops.2.2.2⟩
          | none =>
              rw [hscan] at h
              exact ih (m + 1) (by omega) h

def actD : Action := { id := "D", type := "api", description := "GET /d" }

/-- Window ids `A, B, C`; the only stored key is `B,Cx,D`, whose first
character-level match with the lookup key `B,C` is not token-aligned
(its second token is `Cx`, not `C`). -/
def c2State : EngineState :=
  { isRunning := true,
    currentSequence := [reqA, reqB, reqC],
    requestHistory := [],
    patterns := [("B,Cx,D", 10)],
    actionCache := [("D", actD)],
    patternAnalysisTimer := false }

def c2Pred : Prediction :=
  { confidence := 79/100, action := actD, context := "After POST request to /c" }

theorem calculateConfidence_BCxD :
    calculateConfidence "B,Cx,D" 10 1 = 79/100 := by
  show min ((10 : ℚ)/10) 1 * 0.6 + min (((splitComma "B,Cx,D").length : ℚ)/10) 1 * 0.3
      + 1 * 0.1 = 79/100
  rw [show (splitComma "B,Cx,D").length = 3 from by decide]
  rw [min_eq_left (by norm_num : (10 : ℚ)/10 ≤ 1),
    min_eq_left (by norm_num : ((3 : ℕ) : ℚ)/10 ≤ 1)]
  norm_num

theorem scanPatterns_c2State :
    scanPatterns c2State 1 "B,C" 2 c2State.patterns = some ("B,Cx,D", c2Pred, c2State) := by
  rw [scanPatterns_eq_find]
  rw [show c2State.patterns = [("B,Cx,D", 10)] from rfl]
  have hq : qualifyingEntry c2State 1 "B,C" 2 ("B,Cx,D", 10) = true := by
    simp only [qualifyingEntry]
    rw [show (strStartsWith "B,Cx,D" "B,C" && ("B,Cx,D" != "B,C")) = true from by decide]
    rw [decide_eq_true (show calculateConfidence "B,Cx,D" 10 1 ≥ 0.3 from by
      rw [calculateConfidence_BCxD]; norm_num)]
    rfl
  rw [List.find?_cons_of_pos _ hq]
  show (createPrediction c2State ((splitComma "B,Cx,D").get? 2)
      (calculateConfidence "B,Cx,D" 10 1)).map (fun pr => ("B,Cx,D", pr.1, pr.2)) = _
  rw [calculateConfidence_BCxD]
  rfl

theorem tryPatternLengths_c2State :
    tryPatternLengths c2State 1 ["A", "B", "C"] 2 = some ("B,Cx,D", 2, c2Pred, c2State) := by
  have hscan : scanPatterns c2State 1
      (joinComma (List.drop (["A", "B", "C"].length - 2) ["A", "B", "C"])) 2
      c2State.patterns = some ("B,Cx,D", c2Pred, c2State) := scanPatterns_c2State
  simp only [tryPatternLengths]
  rw [hscan]

theorem predictNextAction_c2State :
    predictNextAction {} 1 c2State = some (c2Pred, c2State) := by
  have htry : tryPatternLengths c2State 1
      (c2State.currentSequence.map (fun r => r.id))
      (min (c2State.currentSequence.length - 1) (CellOptions.maxPatternLength {})) =
      some ("B,Cx,D", 2, c2Pred, c2State) := tryPatternLengths_c2State
  rw [predictNextAction, if_neg (by decide)]
  simp only [htry]

/-- C2 counterexample: with window ids `A, B, C` the lookup key is `B,C`; the
stored key `B,Cx,D` matches it as a character-level strict prefix and a
prediction for `D` is produced, yet the stored key's token list
`[B, Cx, D]` does not extend the looked-up window ids `[B, C]`, so the
predicted id is not the token immediately following the matched window ids. -/
theorem C2_token_alignment_counterexample :
    predictNextAction {} 1 c2State = some (c2Pred, c2State) ∧
    tryPatternLengths c2State 1 ["A", "B", "C"] 2 = some ("B,Cx,D", 2, c2Pred, c2State) ∧
    joinComma (List.drop 1 ["A", "B", "C"]) = "B,C" ∧
    strStartsWith "B,Cx,D" "B,C" = true ∧
    c2Pred.action.id = "D" ∧
    (splitComma "B,Cx,D").take 2 ≠ ["B", "C"] ∧
    ¬∃ rest, splitComma "B,Cx,D" = ["B", "C"] ++ c2Pred.action.id :: rest := by
  refine ⟨predictNextAction_c2State, tryPatternLengths_c2State, by decide, by decide,
    rfl, by decide, ?_⟩
  rintro ⟨rest, hr⟩
  have htake : (splitComma "B,Cx,D").take 2 = ["B", "C"] := by
    rw [hr]
    rfl
  have hne : (splitComma "B,Cx,D").take 2 ≠ ["B", "C"] := by decide
  exact hne htake

/-- Concrete instantiation of the amended C2 theorem at `c2State`. -/
theorem C2_exact_match_prediction_shape_witness :
    2 ≤ 2 ∧
    strStartsWith "B,Cx,D"
      (joinComma (List.drop (["A", "B", "C"].length - 2) ["A", "B", "C"])) = true ∧
    "B,Cx,D" ≠ joinComma (List.drop (["A", "B", "C"].length - 2) ["A", "B", "C"]) ∧
    2 + 1 ≤ (splitComma "B,Cx,D").length ∧
    (splitComma "B,Cx,D").get? 2 = some c2Pred.action.id :=
  C2_exact_match_prediction_shape c2State 1 ["A", "B", "C"] 2 "B,Cx,D" 2 c2Pred c2State
    (by intro e he; simp only [c2State, List.mem_singleton] at he; subst he; rfl)
    tryPatternLengths_c2State

/-! ## Claim C3: the real-valued confidence formula

`calculateRecencyFactor` uses `Math.exp`, modelled here over `ℝ`. -/

/-- `calculateRecencyFactor`: `0` on an empty sequence, otherwise
`exp(-(now - avg) / 3600000)` where `avg` is the mean of the sequence
timestamps. -/
noncomputable def calculateRecencyFactor (now : ℝ) (timestamps : List ℝ) : ℝ :=
  if timestamps.length = 0 then 0
  else Real.exp (-((now - timestamps.sum / timestamps.length) / 3600000))

/-- The recency factor as a function of the timestamp delta
`ΔT = now - avg`. -/
noncomputable def recencyOfDelta (timeDiff : ℝ) : ℝ :=
  Real.exp (-timeDiff / 3600000)

theorem calculateRecencyFactor_eq_recencyOfDelta (now : ℝ) (timestamps : List ℝ)
    (h : timestamps.length ≠ 0) :
    calculateRecencyFactor now timestamps =
      recencyOfDelta (now - timestamps.sum / timestamps.length) := by
  rw [calculateRecencyFactor, if_neg h, recencyOfDelta, neg_div]

/-- The exact-match confidence of `calculateConfidence` as a function of the
stored frequency, the token count of the pattern key, and the timestamp
delta fed to the recency factor. -/
noncomputable def exactMatchConfidence (frequency tokenCount : ℕ) (timeDiff : ℝ) : ℝ :=
  min ((frequency : ℝ) / 10) 1 * 0.6 + min ((tokenCount : ℝ) / 10) 1 * 0.3 +
    recencyOfDelta timeDiff * 0.1

/-- C3 counterexample: with frequency `0`, token count `0` and timestamp
delta `-108000000` (window average timestamp 30 hours in the future of
`now`), the confidence is at least `3.1`, outside `[0, 1]`. -/
theorem C3_confidence_above_one_counterexample :
    1 < exactMatchConfidence 0 0 (-108000000) := by
  have hexp : (30 : ℝ) + 1 ≤ Real.exp 30 := Real.add_one_le_exp 30
  have harg : -(-108000000 : ℝ) / 3600000 = 30 := by norm_num
  have hrec : recencyOfDelta (-108000000) = Real.exp 30 := by
    rw [recencyOfDelta, harg]
  rw [exactMatchConfidence, hrec]
  have h0 : min ((0 : ℕ) / 10 : ℝ) 1 = 0 := by norm_num
  rw [Nat.cast_zero]
  rw [min_eq_left (by norm_num : (0 : ℝ) / 10 ≤ 1)]
  nlinarith

/-- C3 (amended): for every frequency, pattern token count, and nonnegative
timestamp delta, the exact-match confidence lies in `[0, 1]`.  (For negative
deltas — a window average timestamp in the future of `now` — the recency
factor exceeds `1` and so can the confidence, as the counterexample shows.) -/
theorem C3_confidence_in_unit_interval (frequency tokenCount : ℕ) (timeDiff : ℝ)
    (h : 0 ≤ timeDiff) :
    0 ≤ exactMatchConfidence frequency tokenCount timeDiff ∧
      exactMatchConfidence frequency tokenCount timeDiff ≤ 1 := by
  have hf0 : (0 : ℝ) ≤ min ((frequency : ℝ) / 10) 1 :=
    le_min (by positivity) (by norm_num)
  have hf1 : min ((frequency : ℝ) / 10) 1 ≤ 1 := min_le_right _ _
  have ht0 : (0 : ℝ) ≤ min ((tokenCount : ℝ) / 10) 1 :=
    le_min (by positivity) (by norm_num)
  have ht1 : min ((tokenCount : ℝ) / 10) 1 ≤ 1 := min_le_right _ _
  have hr0 : (0 : ℝ) ≤ recencyOfDelta timeDiff := le_of_lt (Real.exp_pos _)
  have hr1 : recencyOfDelta timeDiff ≤ 1 := by
    rw [recencyOfDelta]
    rw [Real.exp_le_one_iff]
    have h36 : (0 : ℝ) < 3600000 := by norm_num
    exact div_nonpos_of_nonpos_of_nonneg (by linarith) (le_of_lt h36)
  constructor
  · rw [exactMatchConfidence]
    nlinarith
  · rw [exactMatchConfidence]
    nlinarith

theorem C3_confidence_in_unit_interval_witness :
    (0 : ℝ) ≤ 0 ∧
    (0 ≤ exactMatchConfidence 8 3 0 ∧ exactMatchConfidence 8 3 0 ≤ 1) :=
  ⟨le_refl 0, C3_confidence_in_unit_interval 8 3 0 (le_refl 0)⟩

/-! ## Claim C8: the fuzzy fallback -/

theorem fuzzyMatchAction_eq_core (st : EngineState) (lastRequest : NetworkRequest)
    (hlen : ¬st.currentSequence.length < 2)
    (hlast : st.currentSequence.getLast? = some lastRequest) :
    fuzzyMatchAction st = fuzzyCore st lastRequest := by
  rw [fuzzyMatchAction, if_neg hlen, hlast]

theorem pickBest_foldl_props (l : List (String × ℕ)) (b : Option String × ℕ) :
    b.2 ≤ (l.foldl
        (fun best entry => if best.2 < entry.2 then (some entry.1, entry.2) else best) b).2 ∧
    (∀ e ∈ l, e.2 ≤ (l.foldl
        (fun best entry => if best.2 < entry.2 then (some entry.1, entry.2) else best) b).2) ∧
    ((l.foldl
        (fun best entry => if best.2 < entry.2 then (some entry.1, entry.2) else best) b) = b ∨
      ∃ e ∈ l, (l.foldl
        (fun best entry => if best.2 < entry.2 then (some entry.1, entry.2) else best) b) =
          (some e.1, e.2)) := by
  induction l generalizing b with
  | nil => simp
  | cons e rest ih =>
      simp only [List.foldl_cons]
      by_cases hlt : b.2 < e.2
      · rw [if_pos hlt]
        obtain ⟨ih1, ih2, ih3⟩ := ih (some e.1, e.2)
        refine ⟨le_trans (le_of_lt hlt) ih1, ?_, ?_⟩
        · intro e2 he2
          rcases List.mem_cons.mp he2 with he2 | he2
          · subst he2
            exact ih1
          · exact ih2 e2 he2
        · rcases ih3 with h3 | ⟨e3, he3, h3⟩
          · exact Or.inr ⟨e, List.mem_cons_self _ _, h3⟩
          · exact Or.inr ⟨e3, List.mem_cons_of_mem _ he3, h3⟩
      · rw [if_neg hlt]
        obtain ⟨ih1, ih2, ih3⟩ := ih b
        refine ⟨ih1, ?_, ?_⟩
        · intro e2 he2
          rcases List.mem_cons.mp he2 with he2 | he2
          · subst he2
            omega
          · exact ih2 e2 he2
        · rcases ih3 with h3 | ⟨e3, he3, h3⟩
          · exact Or.inl h3
          · exact Or.inr ⟨e3, List.mem_cons_of_mem _ he3, h3⟩

theorem pickBest_some (l : List (String × ℕ)) (bestId : String) (bestCount : ℕ)
    (h : pickBest l = (some bestId, bestCount)) :
    (bestId, bestCount) ∈ l ∧ ∀ e ∈ l, e.2 ≤ bestCount := by
  obtain ⟨_, h2, h3⟩ := pickBest_foldl_props l (none, 0)
  rw [pickBest] at h
  constructor
  · rcases h3 with h3 | ⟨e3, he3, h3⟩
    · rw [h] at h3
      simp at h3
    · rw [h] at h3
      obtain ⟨h31, h32⟩ := Prod.mk.injEq _ _ _ _ ▸ h3
      have hb : bestId = e3.1 := by
        have := congrArg Prod.fst h3
        simpa using this
      have hc : bestCount = e3.2 := by
        have := congrArg Prod.snd h3
        simpa using this
      rw [hb, hc]
      simpa using he3
  · intro e he
    have := h2 e he
    rw [h] at this
    exact this

theorem stringSimilarity_users :
    stringSimilarity "/users/1" "/users/2" = 7/8 := by
  have hne : ("/users/1" : String) ≠ "/users/2" := by decide
  have hlev_le : levenshtein "/users/1".data "/users/2".data ≤ 1 := by
    rw [show "/users/1".data = "/users/".data ++ ['1'] from rfl,
      show "/users/2".data = "/users/".data ++ ['2'] from rfl]
    exact levenshtein_last_diff _ _ _
  have hlev_ne : levenshtein "/users/1".data "/users/2".data ≠ 0 := by
    intro h0
    exact hne (string_eq_of_data_eq (levenshtein_eq_zero h0))
  have hlev : levenshtein "/users/1".data "/users/2".data = 1 := by omega
  rw [stringSimilarity, if_neg hne, if_neg (by decide), hlev]
  rw [show max ("/users/1".length) ("/users/2".length) = 8 from by decide]
  norm_num

theorem totalSimilarity_users (e1 e2 : NetworkRequest) (h1 : e1.url = "/users/1")
    (h2 : e2.url = "/users/2") (hm : e1.method = e2.method) :
    totalSimilarity e1 e2 > 0.8 := by
  show stringSimilarity e1.url e2.url * 0.8 +
      (if e1.method = e2.method then (1 : ℚ) else 0) * 0.2 > 0.8
  rw [h1, h2, if_pos hm, stringSimilarity_users]
  norm_num

/-- C8: the fuzzy fallback keeps exactly the history events other than the
last one whose score `0.8 * urlSimilarity + 0.2 * methodSimilarity` exceeds
`0.8`; it returns no prediction when there are zero similar events or zero
tallied followers; a returned prediction is for a follower id of maximal
tally with confidence `tally / totalTalliedOccurrences`; and two events with
identical method and urls `/users/1` vs `/users/2` count as similar. -/
theorem C8_fuzzy_fallback (st : EngineState) (lastRequest : NetworkRequest)
    (hWF : WFCache st.actionCache)
    (hlast : st.currentSequence.getLast? = some lastRequest) :
    (∀ request, request ∈ similarRequestsOf st.requestHistory lastRequest ↔
      (request ∈ st.requestHistory ∧ request.id ≠ lastRequest.id ∧
        0.8 * stringSimilarity request.url lastRequest.url +
          0.2 * (if request.method = lastRequest.method then (1 : ℚ) else 0) > 0.8)) ∧
    (similarRequestsOf st.requestHistory lastRequest = [] → fuzzyMatchAction st = none) ∧
    ((nextActionsOf st.requestHistory
        (similarRequestsOf st.requestHistory lastRequest)).2 = 0 →
      fuzzyMatchAction st = none) ∧
    (∀ p st2, fuzzyMatchAction st = some (p, st2) →
      ∃ bestId bestCount,
        (bestId, bestCount) ∈ (nextActionsOf st.requestHistory
            (similarRequestsOf st.requestHistory lastRequest)).1 ∧
        (∀ e ∈ (nextActionsOf st.requestHistory
            (similarRequestsOf st.requestHistory lastRequest)).1, e.2 ≤ bestCount) ∧
        p.action.id = bestId ∧
        p.confidence = (bestCount : ℚ) / ((nextActionsOf st.requestHistory
            (similarRequestsOf st.requestHistory lastRequest)).2 : ℚ)) ∧
    (∀ e1 e2 : NetworkRequest, e1.url = "/users/1" → e2.url = "/users/2" →
      e1.method = e2.method → totalSimilarity e1 e2 > 0.8) := by
  refine ⟨?_, ?_, ?_, ?_, fun e1 e2 h1 h2 hm => totalSimilarity_users e1 e2 h1 h2 hm⟩
  · intro request
    rw [similarRequestsOf, List.mem_filter]
    have hts : totalSimilarity request lastRequest =
        0.8 * stringSimilarity request.url lastRequest.url +
          0.2 * (if request.method = lastRequest.method then (1 : ℚ) else 0) := by
      show stringSimilarity request.url lastRequest.url * 0.8 +
          (if request.method = lastRequest.method then (1 : ℚ) else 0) * 0.2 = _
      ring
    constructor
    · rintro ⟨hmem, hcond⟩
      simp only [Bool.and_eq_true, bne_iff_ne, decide_eq_true_eq] at hcond
      exact ⟨hmem, hcond.1, by rw [← hts]; exact hcond.2⟩
    · rintro ⟨hmem, hid, hsim⟩
      refine ⟨hmem, ?_⟩
      simp only [Bool.and_eq_true, bne_iff_ne, decide_eq_true_eq]
      exact ⟨hid, by rw [hts]; exact hsim⟩
  · intro hsim
    by_cases hlen : st.currentSequence.length < 2
    · rw [fuzzyMatchAction, if_pos hlen]
    · rw [fuzzyMatchAction_eq_core st lastRequest hlen hlast, fuzzyCore,
        if_pos (by rw [hsim]; rfl)]
  · intro htal
    by_cases hlen : st.currentSequence.length < 2
    · rw [fuzzyMatchAction, if_pos hlen]
    · rw [fuzzyMatchAction_eq_core st lastRequest hlen hlast, fuzzyCore]
      by_cases hempty : (similarRequestsOf st.requestHistory lastRequest).length = 0
      · rw [if_pos hempty]
      · rw [if_neg hempty, if_pos htal]
  · intro p st2 hsome
    by_cases hlen : st.currentSequence.length < 2
    · rw [fuzzyMatchAction, if_pos hlen] at hsome
      exact absurd hsome (by simp)
    · rw [fuzzyMatchAction_eq_core st lastRequest hlen hlast, fuzzyCore] at hsome
      by_cases hempty : (similarRequestsOf st.requestHistory lastRequest).length = 0
      · rw [if_pos hempty] at hsome
        exact absurd hsome (by simp)
      · rw [if_neg hempty] at hsome
        by_cases htal : (nextActionsOf st.requestHistory
            (similarRequestsOf st.requestHistory lastRequest)).2 = 0
        · rw [if_pos htal] at hsome
          exact absurd hsome (by simp)
        · rw [if_neg htal] at hsome
          rcases hpk : pickBest (nextActionsOf st.requestHistory
              (similarRequestsOf st.requestHistory lastRequest)).1 with ⟨bid, c⟩
          rw [hpk] at hsome
          cases bid with
          | none => simp at hsome
          | some id =>
              by_cases hid0 : id = ""
              · simp only [hid0, if_pos rfl] at hsome
                simp at hsome
              · simp only [if_neg hid0] at hsome
                obtain ⟨hmem, hmax⟩ := pickBest_some _ id c hpk
                obtain ⟨aid, haid, hactid, hconf⟩ :=
                  createPrediction_some_id st (some id) _ p st2 hWF hsome
                have haid2 : aid = id := by
                  injection haid with h
                  exact h.symm
                exact ⟨id, c, hmem, hmax, by rw [hactid, haid2], hconf⟩

def fuzzyReqA : NetworkRequest := { id := "a", url := "/u", method := "GET", timestamp := 0 }

def fuzzyReqB : NetworkRequest := { id := "b", url := "/u", method := "GET", timestamp := 0 }

def fuzzyLast : NetworkRequest := { id := "c", url := "/u", method := "GET", timestamp := 0 }

/-- History with two events similar to the window's last event. -/
def fuzzyState : EngineState :=
  { isRunning := true,
    currentSequence := [fuzzyReqA, fuzzyLast],
    requestHistory := [fuzzyReqA, fuzzyReqB, fuzzyLast],
    patterns := [],
    actionCache := [],
    patternAnalysisTimer := false }

theorem C8_fuzzy_fallback_witness :
    WFCache fuzzyState.actionCache ∧
    fuzzyState.currentSequence.getLast? = some fuzzyLast ∧
    ((∀ request, request ∈ similarRequestsOf fuzzyState.requestHistory fuzzyLast ↔
      (request ∈ fuzzyState.requestHistory ∧ request.id ≠ fuzzyLast.id ∧
        0.8 * stringSimilarity request.url fuzzyLast.url +
          0.2 * (if request.method = fuzzyLast.method then (1 : ℚ) else 0) > 0.8)) ∧
    (similarRequestsOf fuzzyState.requestHistory fuzzyLast = [] →
      fuzzyMatchAction fuzzyState = none) ∧
    ((nextActionsOf fuzzyState.requestHistory
        (similarRequestsOf fuzzyState.requestHistory fuzzyLast)).2 = 0 →
      fuzzyMatchAction fuzzyState = none) ∧
    (∀ p st2, fuzzyMatchAction fuzzyState = some (p, st2) →
      ∃ bestId bestCount,
        (bestId, bestCount) ∈ (nextActionsOf fuzzyState.requestHistory
            (similarRequestsOf fuzzyState.requestHistory fuzzyLast)).1 ∧
        (∀ e ∈ (nextActionsOf fuzzyState.requestHistory
            (similarRequestsOf fuzzyState.requestHistory fuzzyLast)).1, e.2 ≤ bestCount) ∧
        p.action.id = bestId ∧
        p.confidence = (bestCount : ℚ) / ((nextActionsOf fuzzyState.requestHistory
            (similarRequestsOf fuzzyState.requestHistory fuzzyLast)).2 : ℚ)) ∧
    (∀ e1 e2 : NetworkRequest, e1.url = "/users/1" → e2.url = "/users/2" →
      e1.method = e2.method → totalSimilarity e1 e2 > 0.8)) := by
  have hWF : WFCache fuzzyState.actionCache := by
    intro e he
    simp [fuzzyState] at he
  exact ⟨hWF, rfl, C8_fuzzy_fallback fuzzyState fuzzyLast hWF rfl⟩

/-! ## Workflow automation (`src/ui/CommandBar.tsx`, class `WorkflowAutomation`)

`this.workflows` mirrors the persisted workflow table (loaded in the
constructor and written through by `saveWorkflow`/`incrementWorkflowFrequency`),
so both are modelled as the single `workflows` field. -/

structure AutomationState where
  workflows : List (String × Workflow)
  detectingWorkflow : Bool
  currentWorkflow : List Action
  executionQueue : List String
  isExecuting : Bool
deriving DecidableEq

/-- `createWorkflow`: name from the current persisted count, description from
the first and last actions, frequency `1`. -/
def createWorkflow (workflows : List (String × Workflow)) (actions : List Action)
    (newId : String) (now : ℤ) : Workflow :=
  { id := newId,
    name := "Workflow " ++ toString (workflows.length + 1),
    description :=
      match actions.head?, actions.getLast? with
      | some firstAction, some lastAction =>
          firstAction.description ++ " → " ++ lastAction.description
      | _, _ => "Workflow " ++ toString (workflows.length + 1),
    actions := actions,
    frequency := 1,
    lastExecuted := some now }

/-- `startDetection`: idle → recording, resetting the in-progress list. -/
def startDetection (st : AutomationState) : AutomationState :=
  if st.detectingWorkflow then st
  else { st with detectingWorkflow := true, currentWorkflow := [] }

/-- `addAction`: appends only while recording. -/
def addAction (st : AutomationState) (action : Action) : AutomationState :=
  if st.detectingWorkflow = false then st
  else { st with currentWorkflow := st.currentWorkflow ++ [action] }

/-- `stopDetection`: persist and return a workflow when at least two actions
were recorded, otherwise discard; `none` when idle.  (In the saving branch
the source leaves `currentWorkflow` as is, which the model preserves.) -/
def stopDetection (st : AutomationState) (newId : String) (now : ℤ) :
    AutomationState × Option Workflow :=
  if st.detectingWorkflow = false then (st, none)
  else
    if 2 ≤ st.currentWorkflow.length then
      let workflow := createWorkflow st.workflows st.currentWorkflow newId now
      ({ st with detectingWorkflow := false, workflows := aset st.workflows newId workflow },
        some workflow)
    else
      ({ st with detectingWorkflow := false, currentWorkflow := [] }, none)

/-- C7: stopping while idle or with fewer than two recorded actions persists
nothing and returns none; stopping with exactly two recorded actions persists
and returns a workflow holding those two actions in order with frequency 1. -/
theorem C7_stopDetection_thresholds (st : AutomationState) (newId : String) (now : ℤ) :
    (st.detectingWorkflow = false → stopDetection st newId now = (st, none)) ∧
    (st.detectingWorkflow = true → st.currentWorkflow.length < 2 →
      (stopDetection st newId now).2 = none ∧
      (stopDetection st newId now).1.workflows = st.workflows) ∧
    (∀ a1 a2, st.detectingWorkflow = true → st.currentWorkflow = [a1, a2] →
      ∃ w, (stopDetection st newId now).2 = some w ∧
        w.actions = [a1, a2] ∧ w.frequency = 1 ∧
        alookup (stopDetection st newId now).1.workflows w.id = some w) := by
  refine ⟨?_, ?_, ?_⟩
  · intro h
    rw [stopDetection, if_pos h]
  · intro h hlen
    have h2 : ¬(st.detectingWorkflow = false) := by simp [h]
    have h3 : ¬(2 ≤ st.currentWorkflow.length) := by omega
    rw [stopDetection, if_neg h2, if_neg h3]
    exact ⟨rfl, rfl⟩
  · intro a1 a2 h hcw
    have h2 : ¬(st.detectingWorkflow = false) := by simp [h]
    have h3 : 2 ≤ st.currentWorkflow.length := by rw [hcw]; simp
    refine ⟨createWorkflow st.workflows st.currentWorkflow newId now,
      ?_, by rw [createWorkflow, hcw], rfl, ?_⟩
    · rw [stopDetection, if_neg h2, if_pos h3]
    · rw [stopDetection, if_neg h2, if_pos h3]
      show alookup (aset st.workflows newId _) (createWorkflow _ _ newId now).id = _
      rw [show (createWorkflow st.workflows st.currentWorkflow newId now).id = newId from rfl]
      exact alookup_aset_self _ _ _

def wfActA : Action := { id := "a1", type := "api", description := "GET /1" }

def wfActB : Action := { id := "a2", type := "api", description := "GET /2" }

/-- A recorder mid-recording with exactly two accumulated actions. -/
def recordingState : AutomationState :=
  { workflows := [],
    detectingWorkflow := true,
    currentWorkflow := [wfActA, wfActB],
    executionQueue := [],
    isExecuting := false }

theorem C7_stopDetection_thresholds_witness :
    ∃ w, (stopDetection recordingState "wid" 5).2 = some w ∧
      w.actions = [wfActA, wfActB] ∧ w.frequency = 1 ∧
      alookup (stopDetection recordingState "wid" 5).1.workflows w.id = some w :=
  (C7_stopDetection_thresholds recordingState "wid" 5).2.2 wfActA wfActB rfl rfl

/-! ## Claim C5: `executeWorkflow` drains every queued id and bumps
frequency once

The asynchronous promise/setTimeout drain of `processExecutionQueue` is
modelled as a synchronous loop (the system is single-threaded and
cooperative; the 500ms pacing delay does not affect order), producing one
`StepEvent` per popped queue entry. -/

inductive StepEvent where
  | skippedEmptyId : StepEvent
  | missingAction (actionId : String) : StepEvent
  | executed (actionId : String) (ok : Bool) : StepEvent
deriving DecidableEq

def eventActionId : StepEvent → String
  | StepEvent.skippedEmptyId => ""
  | StepEvent.missingAction actionId => actionId
  | StepEvent.executed actionId _ => actionId

/-- The action-resolution scan of `processExecutionQueue`: first workflow
(in iteration order) containing an action with the id wins. -/
def findActionInWorkflows : List (String × Workflow) → String → Option Action
  | [], _ => none
  | (_, workflow) :: rest, actionId =>
      match workflow.actions.find? (fun a => a.id == actionId) with
      | some action => some action
      | none => findActionInWorkflows rest actionId

/-- One drain step: the JS-falsy guard skips an empty id silently, a missing
action is logged and skipped, otherwise the action is executed through the
injected executor (which may fail). -/
def stepFor (workflows : List (String × Workflow)) (exec : Action → Bool)
    (actionId : String) : StepEvent :=
  if actionId = "" then StepEvent.skippedEmptyId
  else
    match findActionInWorkflows workflows actionId with
    | none => StepEvent.missingAction actionId
    | some action => StepEvent.executed actionId (exec action)

/-- The drain loop of `processExecutionQueue`: pop, resolve, attempt,
continue — an error or missing reference never halts the loop. -/
def processExecutionQueue (workflows : List (String × Workflow))
    (exec : Action → Bool) : List String → List StepEvent
  | [] => []
  | actionId :: rest =>
      if actionId = "" then
        StepEvent.skippedEmptyId :: processExecutionQueue workflows exec rest
      else
        match findActionInWorkflows workflows actionId with
        | none =>
            StepEvent.missingAction actionId :: processExecutionQueue workflows exec rest
        | some action =>
            StepEvent.executed actionId (exec action) ::
              processExecutionQueue workflows exec rest

/-- `incrementWorkflowFrequency` from the storage helpers. -/
def incrementWorkflowFrequency (workflows : List (String × Workflow)) (id : String)
    (now : ℤ) : List (String × Workflow) :=
  match alookup workflows id with
  | some w =>
      aset workflows id { w with frequency := w.frequency + 1, lastExecuted := some now }
  | none => workflows

/-- `executeWorkflow`: queue the workflow's action ids, drain if idle, and
bump the workflow's usage statistics once. -/
def executeWorkflow (st : AutomationState) (workflowId : String) (now : ℤ)
    (exec : Action → Bool) : AutomationState × List StepEvent :=
  match alookup st.workflows workflowId with
  | none => (st, [])
  | some workflow =>
      let queue := st.executionQueue ++ workflow.actions.map (fun a => a.id)
      if st.isExecuting = false then
        ({ st with workflows := incrementWorkflowFrequency st.workflows workflowId now, executionQueue := [], isExecuting := false },
          processExecutionQueue st.workflows exec queue)
      else
        ({ st with workflows := incrementWorkflowFrequency st.workflows workflowId now, executionQueue := queue }, [])

theorem processExecutionQueue_eq_map (workflows : List (String × Workflow))
    (exec : Action → Bool) (queue : List String) :
    processExecutionQueue workflows exec queue = queue.map (stepFor workflows exec) := by
  induction queue with
  | nil => rfl
  | cons actionId rest ih =>
      rw [processExecutionQueue, List.map_cons]
      by_cases h0 : actionId = ""
      · rw [if_pos h0, ih, stepFor, if_pos h0]
      · rw [if_neg h0, ih, stepFor, if_neg h0]
        cases hfind : findActionInWorkflows workflows actionId with
        | none => rfl
        | some action => rfl

theorem eventActionId_stepFor (workflows : List (String × Workflow))
    (exec : Action → Bool) (actionId : String) :
    eventActionId (stepFor workflows exec actionId) = actionId := by
  rw [stepFor]
  by_cases h0 : actionId = ""
  · rw [if_pos h0, h0]
    rfl
  · rw [if_neg h0]
    cases hfind : findActionInWorkflows workflows actionId with
    | none => rfl
    | some action => rfl

/-- C5: executing an existing workflow from an idle executor produces exactly
one drain step per queued action id, in queue order — a step with a missing
action or a failed execution never prevents the remaining steps — and bumps
the workflow's frequency by exactly one, setting `lastExecuted`, once per
call. -/
theorem C5_executeWorkflow_drains_all (st : AutomationState) (workflowId : String)
    (now : ℤ) (exec : Action → Bool) (workflow : Workflow)
    (hwf : alookup st.workflows workflowId = some workflow)
    (hidle : st.isExecuting = false) :
    (executeWorkflow st workflowId now exec).2 =
      (st.executionQueue ++ workflow.actions.map (fun a => a.id)).map
        (stepFor st.workflows exec) ∧
    (executeWorkflow st workflowId now exec).2.map eventActionId =
      st.executionQueue ++ workflow.actions.map (fun a => a.id) ∧
    alookup (executeWorkflow st workflowId now exec).1.workflows workflowId =
      some { workflow with frequency := workflow.frequency + 1, lastExecuted := some now } ∧
    (∀ id2, id2 ≠ workflowId →
      alookup (executeWorkflow st workflowId now exec).1.workflows id2 =
        alookup st.workflows id2) := by
  have hexec : executeWorkflow st workflowId now exec =
      ({ st with workflows := incrementWorkflowFrequency st.workflows workflowId now, executionQueue := [], isExecuting := false },
        processExecutionQueue st.workflows exec
          (st.executionQueue ++ workflow.actions.map (fun a => a.id))) := by
    rw [executeWorkflow, hwf]
    simp only [if_pos hidle]
  rw [hexec]
  refine ⟨processExecutionQueue_eq_map _ _ _, ?_, ?_, ?_⟩
  · rw [processExecutionQueue_eq_map, List.map_map]
    have : eventActionId ∘ stepFor st.workflows exec = id := by
      funext actionId
      exact eventActionId_stepFor st.workflows exec actionId
    rw [this, List.map_id]
  · show alookup (incrementWorkflowFrequency st.workflows workflowId now) workflowId = _
    rw [incrementWorkflowFrequency, hwf]
    exact alookup_aset_self _ _ _
  · intro id2 hne
    show alookup (incrementWorkflowFrequency st.workflows workflowId now) id2 = _
    rw [incrementWorkflowFrequency, hwf]
    exact alookup_aset_ne _ _ _ _ (fun h => hne h.symm)

def wfActC : Action := { id := "a3", type := "api", description := "GET /3" }

def workflow1 : Workflow :=
  { id := "w1", name := "Workflow 1", description := "GET /1 → GET /3",
    actions := [wfActA, wfActB, wfActC], frequency := 1, lastExecuted := none }

/-- An idle executor holding one three-step workflow. -/
def executorState : AutomationState :=
  { workflows := [("w1", workflow1)],
    detectingWorkflow := false,
    currentWorkflow := [],
    executionQueue := [],
    isExecuting := false }

/-- An injected executor that fails exactly on the second action. -/
def failingExec : Action → Bool := fun a => a.id != "a2"

theorem C5_executeWorkflow_drains_all_witness :
    ((executeWorkflow executorState "w1" 9 failingExec).2 =
      (executorState.executionQueue ++ workflow1.actions.map (fun a => a.id)).map
        (stepFor executorState.workflows failingExec) ∧
    (executeWorkflow executorState "w1" 9 failingExec).2.map eventActionId =
      executorState.executionQueue ++ workflow1.actions.map (fun a => a.id) ∧
    alookup (executeWorkflow executorState "w1" 9 failingExec).1.workflows "w1" =
      some { workflow1 with frequency := workflow1.frequency + 1, lastExecuted := some 9 } ∧
    (∀ id2, id2 ≠ "w1" →
      alookup (executeWorkflow executorState "w1" 9 failingExec).1.workflows id2 =
        alookup executorState.workflows id2)) ∧
    (executeWorkflow executorState "w1" 9 failingExec).2 =
      [StepEvent.executed "a1" true, StepEvent.executed "a2" false,
        StepEvent.executed "a3" true] :=
  ⟨C5_executeWorkflow_drains_all executorState "w1" 9 failingExec workflow1 rfl rfl,
    by decide⟩

/-! ## Repetition watcher (`standalone-cell.js`, `checkForRepetitivePatterns`)

The pair entries of `this.patterns` (keys `"sigA->sigB"`); the
signature-statistics entries of `analyzePatterns` live under different keys
and are not read by the pair logic, so only the pair table is modelled.
Times are the `Date.now()` values observed at each call. -/

structure StandaloneRequest where
  url : String
  signature : String
deriving DecidableEq

structure TransitionEntry where
  count : ℕ
  lastSuggested : ℕ
deriving DecidableEq

structure SuggestionEvent where
  currentSignature : String
  nextSignature : String
  count : ℕ
deriving DecidableEq

/-- One `checkForRepetitivePatterns(current, next)` call at time `now`:
skip invalid or self pairs, bump the pair count, and emit a suggestion when
`count >= 3` (the default threshold) and more than `3600000` ms passed since
`lastSuggested` (initially `0`). -/
def checkForRepetitivePatterns (tbl : List (String × TransitionEntry))
    (current next : StandaloneRequest) (now : ℕ) :
    List (String × TransitionEntry) × Option SuggestionEvent :=
  if current.url = "" ∨ next.url = "" then (tbl, none)
  else if current.signature = next.signature then (tbl, none)
  else
    let patternKey := current.signature ++ "->" ++ next.signature
    let entry0 := (alookup tbl patternKey).getD { count := 0, lastSuggested := 0 }
    if 3 ≤ entry0.count + 1 ∧ entry0.lastSuggested + 3600000 < now then
      (aset tbl patternKey { count := entry0.count + 1, lastSuggested := now },
        some { currentSignature := current.signature, nextSignature := next.signature, count := entry0.count + 1 })
    else
      (aset tbl patternKey { count := entry0.count + 1, lastSuggested := entry0.lastSuggested }, none)

/-- Iterated occurrences of the same adjacent pair at the given times,
collecting the emitted suggestions in order. -/
def runChecks (current next : StandaloneRequest) :
    List (String × TransitionEntry) → List ℕ →
      List (String × TransitionEntry) × List SuggestionEvent
  | tbl, [] => (tbl, [])
  | tbl, t :: ts =>
      match checkForRepetitivePatterns tbl current next t with
      | (tbl2, some e) =>
          let r := runChecks current next tbl2 ts
          (r.1, e :: r.2)
      | (tbl2, none) => runChecks current next tbl2 ts

theorem runChecks_cooldown (current next : StandaloneRequest)
    (hu1 : current.url ≠ "") (hu2 : next.url ≠ "")
    (hsig : current.signature ≠ next.signature)
    (last : ℕ) (ts : List ℕ) (hts : ∀ t ∈ ts, t ≤ last + 3600000) :
    ∀ k, (runChecks current next
      [(current.signature ++ "->" ++ next.signature,
        { count := k, lastSuggested := last })] ts).2 = [] := by
  induction ts with
  | nil =>
      intro k
      rfl
  | cons t ts ih =>
      intro k
      have hstep : checkForRepetitivePatterns
          [(current.signature ++ "->" ++ next.signature,
            { count := k, lastSuggested := last })] current next t =
          ([(current.signature ++ "->" ++ next.signature,
            { count := k + 1, lastSuggested := last })], none) := by
        rw [checkForRepetitivePatterns, if_neg (by simp [hu1, hu2]), if_neg hsig]
        have hlook : alookup
            [(current.signature ++ "->" ++ next.signature,
              ({ count := k, lastSuggested := last } : TransitionEntry))]
            (current.signature ++ "->" ++ next.signature) =
            some { count := k, lastSuggested := last } := by
          simp [alookup]
        simp only [hlook, Option.getD_some]
        rw [if_neg (by
          rintro ⟨_, hlt⟩
          have := hts t (List.mem_cons_self _ _)
          omega)]
        simp [aset]
      simp only [runChecks, hstep]
      exact ih (fun t2 ht2 => hts t2 (List.mem_cons_of_mem _ ht2)) (k + 1)

/-- C6: for a fresh transition pair with distinct signatures, counted at
times `t1, t2, t3` with further recurrences all within the 1-hour cooldown
of `t3`, exactly one automation suggestion is emitted — at the third
occurrence, carrying count 3 — and none after, as long as the cooldown has
not elapsed.  (`3600000 < t3` holds for any real `Date.now()`, which is far
larger than one hour past the epoch.) -/
theorem C6_repetition_suggests_once_at_three (current next : StandaloneRequest)
    (t1 t2 t3 : ℕ) (rest : List ℕ)
    (hu1 : current.url ≠ "") (hu2 : next.url ≠ "")
    (hsig : current.signature ≠ next.signature)
    (h3 : 3600000 < t3)
    (hrest : ∀ t ∈ rest, t ≤ t3 + 3600000) :
    (runChecks current next [] (t1 :: t2 :: t3 :: rest)).2 =
      [{ currentSignature := current.signature, nextSignature := next.signature, count := 3 }] := by
  have s1 : checkForRepetitivePatterns [] current next t1 =
      ([(current.signature ++ "->" ++ next.signature,
        { count := 1, lastSuggested := 0 })], none) := by
    rw [checkForRepetitivePatterns, if_neg (by simp [hu1, hu2]), if_neg hsig]
    simp only [alookup, Option.getD_none]
    rw [if_neg (by rintro ⟨hc, _⟩; omega)]
    rfl
  have s2 : checkForRepetitivePatterns
      [(current.signature ++ "->" ++ next.signature,
        { count := 1, lastSuggested := 0 })] current next t2 =
      ([(current.signature ++ "->" ++ next.signature,
        { count := 2, lastSuggested := 0 })], none) := by
    rw [checkForRepetitivePatterns, if_neg (by simp [hu1, hu2]), if_neg hsig]
    have hlook : alookup
        [(current.signature ++ "->" ++ next.signature,
          ({ count := 1, lastSuggested := 0 } : TransitionEntry))]
        (current.signature ++ "->" ++ next.signature) =
        some { count := 1, lastSuggested := 0 } := by
      simp [alookup]
    simp only [hlook, Option.getD_some]
    rw [if_neg (by rintro ⟨hc, _⟩; omega)]
    simp [aset]
  have s3 : checkForRepetitivePatterns
      [(current.signature ++ "->" ++ next.signature,
        { count := 2, lastSuggested := 0 })] current next t3 =
      ([(current.signature ++ "->" ++ next.signature,
        { count := 3, lastSuggested := t3 })],
        some { currentSignature := current.signature, nextSignature := next.signature, count := 3 }) := by
    rw [checkForRepetitivePatterns, if_neg (by simp [hu1, hu2]), if_neg hsig]
    have hlook : alookup
        [(current.signature ++ "->" ++ next.signature,
          ({ count := 2, lastSuggested := 0 } : TransitionEntry))]
        (current.signature ++ "->" ++ next.signature) =
        some { count := 2, lastSuggested := 0 } := by
      simp [alookup]
    simp only [hlook, Option.getD_some]
    rw [if_pos (And.intro (by omega) (by omega))]
    simp [aset]
  have hrest2 := runChecks_cooldown current next hu1 hu2 hsig t3 rest hrest 3
  simp only [runChecks, s1, s2, s3, hrest2]

def transReqA : StandaloneRequest := { url := "/a", signature := "GET:/a" }

def transReqB : StandaloneRequest := { url := "/b", signature := "GET:/b" }

theorem C6_repetition_suggests_once_at_three_witness :
    (runChecks transReqA transReqB []
        [4000000, 4000001, 4000002, 5000000, 7000000]).2 =
      [{ currentSignature := "GET:/a", nextSignature := "GET:/b", count := 3 }] :=
  C6_repetition_suggests_once_at_three transReqA transReqB
    4000000 4000001 4000002 [5000000, 7000000]
    (by decide) (by decide) (by decide) (by decide) (by decide)
